import Mathlib

/-!
Verification of the Lucjan boiler-controller integration
(`custom_components/lucjan_boiler`).

The development shallowly embeds the pure parts of `api.py` and
`coordinator.py`:

* text is `List Char`; Python's `str.strip`, `str.partition("=")`,
  `"x" in s` and `str.splitlines` become `stripList`, `splitFirst`,
  `containsSubstr` and `splitlines` (the latter recognises the line
  terminators `"\n"`, `"\r\n"` and `"\r"` that occur in the device's
  config files);
* JSON numbers are modelled as rationals (`ℚ`); `float()` coercion
  failures are the `JVal.nonNum` constructor;
* the HTTP layer is an explicit environment: each operation receives
  the `Except`-valued outcome of the requests it would make, and the
  uploads/reloads it performs are returned as an explicit `Trace`.
-/

namespace Lucjan

/-- The exception taxonomy of `api.py`: `LucjanApiError` is the base
class, `LucjanConnectionError` and `LucjanAuthError` are subclasses.
`except LucjanApiError` catches all three, which a single inductive
models faithfully. -/
inductive LucjanApiErr where
  | api
  | conn
  | auth
deriving DecidableEq, Repr

/-- ASCII whitespace stripped by Python's `str.strip()`. -/
def isPySpace (c : Char) : Bool :=
  c = ' ' || c = '\t' || c = '\n' || c = '\r' || c = '\x0b' || c = '\x0c'

/-- Python `str.strip()`: drop whitespace from both ends. -/
def stripList (s : List Char) : List Char :=
  ((s.dropWhile isPySpace).reverse.dropWhile isPySpace).reverse

/-- Split at the first occurrence of `c`: Python
`s.partition(c)` restricted to the found case.  `none` models
"`c` not in `s`". -/
def splitFirst (c : Char) : List Char → Option (List Char × List Char)
  | [] => none
  | x :: xs =>
    if x = c then some ([], xs)
    else (splitFirst c xs).map (fun p => (x :: p.1, p.2))

/-- Python `pat in s` (substring containment). -/
def containsSubstr (pat : List Char) : List Char → Bool
  | [] => pat.isEmpty
  | s@(_ :: rest) => pat.isPrefixOf s || containsSubstr pat rest

/-- Worker for `splitlines`, carrying the reversed current line. -/
def splitlinesAux : List Char → List Char → List (List Char)
  | [], acc => if acc.isEmpty then [] else [acc.reverse]
  | '\n' :: rest, acc => acc.reverse :: splitlinesAux rest []
  | '\r' :: '\n' :: rest, acc => acc.reverse :: splitlinesAux rest []
  | '\r' :: rest, acc => acc.reverse :: splitlinesAux rest []
  | c :: rest, acc => splitlinesAux rest (c :: acc)

/-- Python `str.splitlines()` on the terminators (`"\n"`, `"\r\n"`,
`"\r"`) that occur in the device's text files: a trailing terminator
produces no empty final line. -/
def splitlines (s : List Char) : List (List Char) :=
  splitlinesAux s []

/-- Python `"\n".join(lines)`. -/
def joinNL : List (List Char) → List Char
  | [] => []
  | [l] => l
  | l :: ls => l ++ '\n' :: joinNL ls

/-- The matching test of the loop in `LucjanApi._replace_config_param`
(api.py:330-336): the stripped line is not a comment, contains `=`, and
the stripped key before the first `=` equals the parameter. -/
def lineMatches (param line : List Char) : Bool :=
  let stripped := stripList line
  if stripped.head? = some '#' then false
  else
    match splitFirst '=' stripped with
    | none => false
    | some (key, _) => stripList key = param

/-- The replacement line built in `_replace_config_param`
(api.py:337-341): `f"{param} = {new_value}"` when the original line
contains `" = "`, else `f"{param}={new_value}"`. -/
def newParamLine (param value line : List Char) : List Char :=
  if containsSubstr (' ' :: '=' :: [' ']) line then
    param ++ ' ' :: '=' :: ' ' :: value
  else
    param ++ '=' :: value

/-- The `for i, line in enumerate(lines) ... break` loop of
`_replace_config_param`: replace the first matching line, `none` when
no line matches (`found` stays false). -/
def replaceInLines (param value : List Char) : List (List Char) → Option (List (List Char))
  | [] => none
  | line :: rest =>
    if lineMatches param line then
      some (newParamLine param value line :: rest)
    else
      (replaceInLines param value rest).map (line :: ·)

/-- Embedding of `LucjanApi._replace_config_param` (api.py:315-348):
`"\n".join(lines) + "\n"` over the modified lines, or `None` when the
parameter is not found. -/
def replaceConfigParam (configText param newValue : List Char) : Option (List Char) :=
  (replaceInLines param newValue (splitlines configText)).map
    (fun ls => joinNL ls ++ ['\n'])

/-- One iteration of the loop in `LucjanApi._parse_config`
(api.py:354-366): strip the line, skip empty and comment lines, split
on the first `=`, strip key and value, truncate the value at an inline
`#`, and keep the pair only for a nonempty non-`#` key. -/
def parseLine (line : List Char) : Option (List Char × List Char) :=
  let l := stripList line
  if l.isEmpty then none
  else if l.head? = some '#' then none
  else
    match splitFirst '=' l with
    | none => none
    | some (k, v) =>
      let key := stripList k
      let value := stripList v
      let value := if '#' ∈ value then stripList (value.takeWhile (· ≠ '#')) else value
      if key ≠ [] ∧ key.head? ≠ some '#' then some (key, value) else none

/-- Python dict assignment `d[k] = v` observed through insertion order:
an existing entry for `k` is overwritten in place, otherwise the pair
is appended. -/
def dictSet (d : List (List Char × List Char)) (k v : List Char) :
    List (List Char × List Char) :=
  if d.any (fun e => e.1 = k) then
    d.map (fun e => if e.1 = k then (k, v) else e)
  else
    d ++ [(k, v)]

/-- Python `d.get(k)`. -/
def dictGet (d : List (List Char × List Char)) (k : List Char) :
    Option (List Char) :=
  (d.find? (fun e => e.1 = k)).map (·.2)

/-- The loop body of `_parse_config` folded over a list of lines. -/
def parseConfigLines (ls : List (List Char)) : List (List Char × List Char) :=
  ls.foldl
    (fun d line =>
      match parseLine line with
      | none => d
      | some e => dictSet d e.1 e.2)
    []

/-- Embedding of `LucjanApi._parse_config` (api.py:350-367). -/
def parseConfig (text : List Char) : List (List Char × List Char) :=
  parseConfigLines (splitlines text)

/-- Sanity check: the spec's config-parsing example. -/
theorem parseConfig_example :
    parseConfig ("# comment\nPIEC_ZADANA = 55\nCO_TRYB=ZIMA # note\n".toList) =
      [("PIEC_ZADANA".toList, "55".toList), ("CO_TRYB".toList, "ZIMA".toList)] := by
  decide

/-- Sanity check: a spaced line is rewritten with its spacing kept. -/
theorem replaceConfigParam_example :
    replaceConfigParam "# c\nPIEC_ZADANA = 55\nCWU_ZADANA=40\n".toList
        "PIEC_ZADANA".toList "60".toList =
      some "# c\nPIEC_ZADANA = 60\nCWU_ZADANA=40\n".toList := by
  decide

/-- Sanity check: a missing parameter yields `None`. -/
theorem replaceConfigParam_missing_example :
    replaceConfigParam "# c\nCWU_ZADANA=40\n".toList
        "PIEC_ZADANA".toList "60".toList = none := by
  decide

/-! ## Status values and the snapshot (`coordinator.py`) -/

/-- A JSON value as consumed by `_safe_float`/`_safe_positive`:
numbers (and anything else `float()` coerces) are `num` over `ℚ`;
values on which `float()` raises `ValueError`/`TypeError` are
`nonNum`. -/
inductive JVal where
  | num (q : ℚ)
  | nonNum
deriving DecidableEq

/-- A raw thermos.json mapping: `thermos.get(key)` is `tget`. -/
def tget (t : List (String × JVal)) (k : String) : Option JVal :=
  (t.find? (fun e => e.1 = k)).map (·.2)

/-- Embedding of `_safe_float` (coordinator.py:243-250): `None` for a missing value
and for values `float()` rejects. -/
def safeFloat : Option JVal → Option ℚ
  | none => none
  | some (.num q) => some q
  | some .nonNum => none

/-- Embedding of `_safe_positive` (coordinator.py:253-258): `_safe_float`, then
`None` for negative results (`-1` = no sensor). -/
def safePositive (v : Option JVal) : Option ℚ :=
  match safeFloat v with
  | none => none
  | some q => if q < 0 then none else some q

/-- Round-half-to-even on `ℚ`, the rounding mode of Python's
`round`. -/
def roundHalfEven (q : ℚ) : ℤ :=
  let n := ⌊q⌋
  let r := q - n
  if r < 1 / 2 then n
  else if 1 / 2 < r then n + 1
  else if n % 2 = 0 then n else n + 1

/-- Python `round(x, ndigits)`, with floats modelled as exact
rationals. -/
def pyRound (q : ℚ) (ndigits : ℕ) : ℚ :=
  (roundHalfEven (q * 10 ^ ndigits) : ℚ) / 10 ^ ndigits

/-- The fields of `LucjanData` (coordinator.py:21-135) that the
hopper/fuel derivations and the mode selectors read; each field is
computed exactly as in `LucjanData.__init__`. -/
structure LucjanData where
  feeder_time_s : Option ℚ
  feeder_time_remaining_s : Option ℚ
  feeder_time_total_s : Option ℚ
  feeder_g_per_min : Option ℚ
  hopper_cm : Option ℚ
  hopper_percent_raw : Option ℚ
  boiler_mode : List Char
  co_mode : List Char
deriving DecidableEq

/-- Embedding of `LucjanData.__init__` (coordinator.py:31-135) restricted to the
fields above: `thermos.get` feeds `_safe_float`/`_safe_positive`,
`config.get(key, "unknown")` feeds the mode strings. -/
def mkLucjanData (thermos : List (String × JVal))
    (config : List (List Char × List Char)) : LucjanData where
  feeder_time_s := safeFloat (tget thermos "podcz")
  feeder_time_remaining_s := safePositive (tget thermos "podczzas")
  feeder_time_total_s := safePositive (tget thermos "podczdo")
  feeder_g_per_min := safePositive (tget thermos "podgmin")
  hopper_cm := safePositive (tget thermos "podcm")
  hopper_percent_raw := safePositive (tget thermos "podcmp")
  boiler_mode := (dictGet config "PIEC_TRYB".toList).getD "unknown".toList
  co_mode := (dictGet config "CO_TRYB".toList).getD "unknown".toList

/-- Embedding of `LucjanData.hopper_level_percent` (coordinator.py:137-151). -/
def LucjanData.hopper_level_percent (d : LucjanData) : Option ℚ :=
  match d.hopper_percent_raw with
  | some q => some q
  | none =>
    match d.feeder_time_remaining_s, d.feeder_time_total_s with
    | some r, some t => if 0 < t then some (pyRound (r / t * 100) 1) else none
    | _, _ => none

/-- Embedding of `LucjanData.fuel_consumption_kg` (coordinator.py:153-164). -/
def LucjanData.fuel_consumption_kg (d : LucjanData) : Option ℚ :=
  match d.feeder_time_s, d.feeder_g_per_min with
  | some s, some g => if 0 < g then some (pyRound (s / 60 * g / 1000) 2) else none
  | _, _ => none

/-- Sanity check: the spec's hopper-percentage example. -/
theorem hopper_level_percent_example :
    (mkLucjanData
        [("podczzas", .num 600), ("podczdo", .num 1200)] []).hopper_level_percent =
      some 50 := by
  simp +decide [mkLucjanData, LucjanData.hopper_level_percent, tget, safePositive,
    safeFloat, dictGet]
  norm_num [pyRound, roundHalfEven]

/-- Sanity check: the spec's fuel-consumption example. -/
theorem fuel_consumption_kg_example :
    (mkLucjanData
        [("podcz", .num 120), ("podgmin", .num 300)] []).fuel_consumption_kg =
      some (3 / 5) := by
  simp +decide [mkLucjanData, LucjanData.fuel_consumption_kg, tget, safePositive,
    safeFloat, dictGet]
  norm_num [pyRound, roundHalfEven]

/-! ## The HTTP-effect model (`api.py` write paths) -/

/-- Outcomes the environment supplies for the HTTP calls one
`async_set_config_param` invocation makes: the GET of `/config.txt`,
the PUT of `/upload/config.txt` (a function of the uploaded body) and
the GET of `/configreload`.  An `Except.error` models the
`LucjanApiError` the corresponding `_get`/`_put` would raise. -/
structure ConfigEnv where
  getConfigRaw : Except LucjanApiErr (List Char)
  putUpload : List Char → Except LucjanApiErr Unit
  getReload : Except LucjanApiErr Unit

/-- The requests with side effects an operation actually issued:
uploaded `/upload/config.txt` bodies and `/configreload` hits. -/
structure Trace where
  uploads : List (List Char)
  reloads : ℕ
deriving DecidableEq

def Trace.empty : Trace := ⟨[], 0⟩

def Trace.append (a b : Trace) : Trace :=
  ⟨a.uploads ++ b.uploads, a.reloads + b.reloads⟩

/-- The `try` body of `async_set_config_param` (api.py:196-214):
fetch, replace, upload, sleep, reload; an `Except.error` is a
`LucjanApiError` escaping the body.  The trace records the uploads
and reloads performed before the outcome. -/
def setConfigParamRun (env : ConfigEnv) (param value : List Char) :
    Except LucjanApiErr Bool × Trace :=
  match env.getConfigRaw with
  | .error e => (.error e, .empty)
  | .ok raw =>
    match replaceConfigParam raw param value with
    | none => (.ok false, .empty)
    | some newConfig =>
      match env.putUpload newConfig with
      | .error e => (.error e, ⟨[newConfig], 0⟩)
      | .ok _ =>
        match env.getReload with
        | .error e => (.error e, ⟨[newConfig], 1⟩)
        | .ok _ => (.ok true, ⟨[newConfig], 1⟩)

/-- Embedding of `async_set_config_param` (api.py:188-220): the body wrapped in
`except LucjanApiError: return False`.  Every path yields a `Bool`;
no `LucjanApiError` can escape. -/
def asyncSetConfigParam (env : ConfigEnv) (param value : List Char) :
    Bool × Trace :=
  match setConfigParamRun env param value with
  | (.ok b, t) => (b, t)
  | (.error _, t) => (false, t)

/-- Embedding of `async_set_co_circuit` (api.py:236-273).  The `try` body performs
three `async_set_config_param` calls (PIEC_TRYB=RECZNY, CO_TRYB=ZIMA
or ZIM, PIEC_TRYB=AUTO) with sleeps in between, discards their boolean
results, and returns `True`.  Because `async_set_config_param`
catches every `LucjanApiError` internally, the surrounding
`except LucjanApiError` branch (log, best-effort PIEC_TRYB=AUTO
restore, `return False`) can never execute, so the embedding has a
single path ending in `true`. -/
def asyncSetCoCircuit (env1 env2 env3 : ConfigEnv) (enabled : Bool) :
    Bool × Trace :=
  let coValue := if enabled then "ZIMA".toList else "ZIM".toList
  let r1 := asyncSetConfigParam env1 "PIEC_TRYB".toList "RECZNY".toList
  let r2 := asyncSetConfigParam env2 "CO_TRYB".toList coValue
  let r3 := asyncSetConfigParam env3 "PIEC_TRYB".toList "AUTO".toList
  (true, (r1.2.append r2.2).append r3.2)

/-- Embedding of `async_set_variable` (api.py:138-147): GET `/set{name}={value}`,
`True` on success, `False` on any caught `LucjanApiError`.  The
environment maps the request path to its outcome. -/
def asyncSetVariable (env : String → Except LucjanApiErr Unit)
    (name value : String) : Bool :=
  match env ("/set" ++ name ++ "=" ++ value) with
  | .ok _ => true
  | .error _ => false

/-- Embedding of `async_alarm_reset` (api.py:277-284). -/
def asyncAlarmReset (env : String → Except LucjanApiErr Unit) : Bool :=
  match env "/alarmreset" with
  | .ok _ => true
  | .error _ => false

/-- Embedding of `async_config_reload` (api.py:286-293). -/
def asyncConfigReload (env : String → Except LucjanApiErr Unit) : Bool :=
  match env "/configreload" with
  | .ok _ => true
  | .error _ => false

/-- Embedding of `async_hopper_full` (api.py:295-302). -/
def asyncHopperFull (env : String → Except LucjanApiErr Unit) : Bool :=
  match env "/zasobnikfull" with
  | .ok _ => true
  | .error _ => false

/-- Embedding of `async_reset_controller` (api.py:304-311). -/
def asyncResetController (env : String → Except LucjanApiErr Unit) : Bool :=
  match env "/reset" with
  | .ok _ => true
  | .error _ => false

/-- The `UpdateFailed` raised by the coordinator, carrying the caught
error. -/
structure UpdateFailed where
  cause : LucjanApiErr
deriving DecidableEq

/-- Embedding of `LucjanCoordinator._async_update_data` (coordinator.py:221-240):
a failed thermos fetch aborts the cycle as `UpdateFailed`; a failed
config fetch degrades to an empty config mapping; otherwise the
snapshot is built from the status plus the parsed config text. -/
def asyncUpdateData (thermosR : Except LucjanApiErr (List (String × JVal)))
    (configRawR : Except LucjanApiErr (List Char)) :
    Except UpdateFailed LucjanData :=
  match thermosR with
  | .error e => .error ⟨e⟩
  | .ok thermos =>
    let config :=
      match configRawR with
      | .ok raw => parseConfig raw
      | .error _ => []
    .ok (mkLucjanData thermos config)

/-! ## Helper lemmas: the replacement loop -/

theorem replaceInLines_eq_none (param value : List Char)
    (ls : List (List Char)) (h : ∀ l ∈ ls, lineMatches param l = false) :
    replaceInLines param value ls = none := by
  induction ls with
  | nil => rfl
  | cons a rest ih =>
    have ha := h a (List.mem_cons_self a rest)
    have hrest := ih fun l hl => h l (List.mem_cons_of_mem a hl)
    simp [replaceInLines, ha, hrest]

theorem replaceInLines_eq_some (param value : List Char)
    (ls : List (List Char)) (hex : ∃ l ∈ ls, lineMatches param l = true) :
    ∃ pre l suf, ls = pre ++ l :: suf ∧
      (∀ l2 ∈ pre, lineMatches param l2 = false) ∧
      lineMatches param l = true ∧
      replaceInLines param value ls =
        some (pre ++ newParamLine param value l :: suf) := by
  induction ls with
  | nil => obtain ⟨l, hl, _⟩ := hex; cases hl
  | cons a rest ih =>
    by_cases ha : lineMatches param a = true
    · exact ⟨[], a, rest, rfl, by simp, ha, by simp [replaceInLines, ha]⟩
    · have ha' : lineMatches param a = false := by simpa using ha
      obtain ⟨l, hl, hlm⟩ := hex
      have hlrest : l ∈ rest := by
        rcases List.mem_cons.1 hl with h1 | h1
        · exact absurd (h1 ▸ hlm) ha
        · exact h1
      obtain ⟨pre, l0, suf, hdecomp, hpre, hl0, hrepl⟩ := ih ⟨l, hlrest, hlm⟩
      refine ⟨a :: pre, l0, suf, by rw [hdecomp]; rfl, ?_, hl0,
        by simp [replaceInLines, ha', hrepl]⟩
      intro l2 hl2
      rcases List.mem_cons.1 hl2 with h2 | h2
      · exact h2 ▸ ha'
      · exact hpre l2 h2

/-! ## C2, C3: `_replace_config_param` / `async_set_config_param` -/

/-- C2: on a config text containing the target parameter as a
non-comment `key=value` line, `_replace_config_param` rewrites exactly
the first such line — to `"KEY = VALUE"` when the original line
contained `" = "` and to `"KEY=VALUE"` otherwise, which is
`newParamLine` — and the uploaded text is the original list of lines
with only that line changed, joined with `"\n"` plus a trailing
newline: every line before the replaced one (none of which matches)
and every line after it is preserved exactly. -/
theorem replaceConfigParam_first_match (text param value : List Char)
    (hex : ∃ l ∈ splitlines text, lineMatches param l = true) :
    ∃ pre l suf,
      splitlines text = pre ++ l :: suf ∧
      (∀ l2 ∈ pre, lineMatches param l2 = false) ∧
      lineMatches param l = true ∧
      replaceConfigParam text param value =
        some (joinNL (pre ++ newParamLine param value l :: suf) ++ ['\n']) := by
  obtain ⟨pre, l, suf, hdecomp, hpre, hl, hrepl⟩ :=
    replaceInLines_eq_some param value (splitlines text) hex
  exact ⟨pre, l, suf, hdecomp, hpre, hl, by simp [replaceConfigParam, hrepl]⟩

/-- Witness for C2: the spec's example — replacing `PIEC_ZADANA` by
`60` in a text whose matching line is `PIEC_ZADANA = 55`. -/
theorem replaceConfigParam_first_match_witness :
    (∃ l ∈ splitlines "# c\nPIEC_ZADANA = 55\nCWU_ZADANA=40\n".toList,
        lineMatches "PIEC_ZADANA".toList l = true) ∧
    (∃ pre l suf,
      splitlines "# c\nPIEC_ZADANA = 55\nCWU_ZADANA=40\n".toList = pre ++ l :: suf ∧
      (∀ l2 ∈ pre, lineMatches "PIEC_ZADANA".toList l2 = false) ∧
      lineMatches "PIEC_ZADANA".toList l = true ∧
      replaceConfigParam "# c\nPIEC_ZADANA = 55\nCWU_ZADANA=40\n".toList
          "PIEC_ZADANA".toList "60".toList =
        some (joinNL (pre ++
          newParamLine "PIEC_ZADANA".toList "60".toList l :: suf) ++ ['\n'])) :=
  ⟨by decide,
    replaceConfigParam_first_match _ _ _ (by decide)⟩

/-- C3: when the remote config text does not contain the parameter as
a non-comment `key=value` line, `async_set_config_param` returns
`False` having performed no upload and no config-reload. -/
theorem setConfigParam_not_found_no_effects
    (env : ConfigEnv) (param value text : List Char)
    (hget : env.getConfigRaw = .ok text)
    (habs : ∀ l ∈ splitlines text, lineMatches param l = false) :
    asyncSetConfigParam env param value = (false, Trace.empty) := by
  have hrep : replaceConfigParam text param value = none := by
    simp [replaceConfigParam, replaceInLines_eq_none param value _ habs]
  simp [asyncSetConfigParam, setConfigParamRun, hget, hrep]

/-- Witness for C3: a config lacking `PIEC_TRYB`; the call reports
failure and the trace shows no upload and no reload. -/
theorem setConfigParam_not_found_no_effects_witness :
    ((⟨.ok "# c\nCWU_ZADANA=40\n".toList, fun _ => .ok (), .ok ()⟩ :
        ConfigEnv).getConfigRaw = .ok "# c\nCWU_ZADANA=40\n".toList) ∧
    (∀ l ∈ splitlines "# c\nCWU_ZADANA=40\n".toList,
        lineMatches "PIEC_TRYB".toList l = false) ∧
    asyncSetConfigParam
        ⟨.ok "# c\nCWU_ZADANA=40\n".toList, fun _ => .ok (), .ok ()⟩
        "PIEC_TRYB".toList "AUTO".toList = (false, Trace.empty) :=
  ⟨rfl, by decide,
    setConfigParam_not_found_no_effects _ _ _ _ rfl (by decide)⟩

/-! ## C1: `async_set_co_circuit` ignores step failures -/

/-- C1 (refutes the claim; the code is the slip): in an environment
where every HTTP request fails, each primary step fails —
`async_set_config_param` returns `False`, first conjunct — yet the
composite `async_set_co_circuit` returns `True`, and its trace shows
that no recovery upload of `PIEC_TRYB=AUTO` was attempted either.
The `except LucjanApiError` branch of api.py:266-273 (log, best-effort
AUTO restore, `return False`) is dead code, because
`async_set_config_param` catches every `LucjanApiError` internally and
only returns a boolean, which the composite discards. -/
theorem setCoCircuit_true_despite_failed_steps :
    (asyncSetConfigParam ⟨.error .conn, fun _ => .ok (), .ok ()⟩
        "PIEC_TRYB".toList "RECZNY".toList).1 = false ∧
    asyncSetCoCircuit
        ⟨.error .conn, fun _ => .ok (), .ok ()⟩
        ⟨.error .conn, fun _ => .ok (), .ok ()⟩
        ⟨.error .conn, fun _ => .ok (), .ok ()⟩
        true = (true, Trace.empty) := by
  exact ⟨rfl, rfl⟩

/-! ## C5: poll cycle — status fatal, config non-fatal -/

/-- C5: in the coordinator's update, a failed status fetch makes the
cycle fail with `UpdateFailed` (no snapshot is produced, so the
previous one stays current); a failed config fetch is non-fatal and
the snapshot is built from the status plus an empty config mapping;
when both succeed the snapshot uses the parsed config. -/
theorem updateData_status_fatal_config_nonfatal :
    (∀ (e : LucjanApiErr) (configR : Except LucjanApiErr (List Char)),
        asyncUpdateData (.error e) configR = .error ⟨e⟩) ∧
    (∀ (thermos : List (String × JVal)) (e : LucjanApiErr),
        asyncUpdateData (.ok thermos) (.error e) =
          .ok (mkLucjanData thermos [])) ∧
    (∀ (thermos : List (String × JVal)) (raw : List Char),
        asyncUpdateData (.ok thermos) (.ok raw) =
          .ok (mkLucjanData thermos (parseConfig raw))) :=
  ⟨fun _ _ => rfl, fun _ _ => rfl, fun _ _ => rfl⟩

/-! ## C9: write operations never raise -/

/-- C9: the runtime-variable setter and the four one-shot system
commands are total boolean functions of their request's outcome: an
internally raised `ApiError`/`ConnectionError`/`AuthError` (any
`LucjanApiErr`) becomes `false`, success becomes `true`; no error
reaches the caller. -/
theorem write_ops_never_raise (env : String → Except LucjanApiErr Unit)
    (name value : String) :
    (∀ e, env ("/set" ++ name ++ "=" ++ value) = .error e →
      asyncSetVariable env name value = false) ∧
    (env ("/set" ++ name ++ "=" ++ value) = .ok () →
      asyncSetVariable env name value = true) ∧
    (∀ e, env "/alarmreset" = .error e → asyncAlarmReset env = false) ∧
    (env "/alarmreset" = .ok () → asyncAlarmReset env = true) ∧
    (∀ e, env "/configreload" = .error e → asyncConfigReload env = false) ∧
    (env "/configreload" = .ok () → asyncConfigReload env = true) ∧
    (∀ e, env "/zasobnikfull" = .error e → asyncHopperFull env = false) ∧
    (env "/zasobnikfull" = .ok () → asyncHopperFull env = true) ∧
    (∀ e, env "/reset" = .error e → asyncResetController env = false) ∧
    (env "/reset" = .ok () → asyncResetController env = true) := by
  refine ⟨?_, ?_, ?_, ?_, ?_, ?_, ?_, ?_, ?_, ?_⟩ <;>
    first
      | (intro e h; simp [asyncSetVariable, asyncAlarmReset, asyncConfigReload,
          asyncHopperFull, asyncResetController, h])
      | (intro h; simp [asyncSetVariable, asyncAlarmReset, asyncConfigReload,
          asyncHopperFull, asyncResetController, h])

/-- Witness for C9: a failing environment yields `false` from
`async_set_variable`, a succeeding one yields `true` from
`async_alarm_reset`. -/
theorem write_ops_never_raise_witness :
    ((fun _ => Except.error LucjanApiErr.conn :
        String → Except LucjanApiErr Unit) ("/set" ++ "PIEC_ZADANA" ++ "=" ++ "60") =
      .error .conn) ∧
    asyncSetVariable (fun _ => .error .conn) "PIEC_ZADANA" "60" = false ∧
    asyncAlarmReset (fun _ => .ok ()) = true :=
  ⟨rfl,
    (write_ops_never_raise (fun _ => .error .conn) "PIEC_ZADANA" "60").1 .conn rfl,
    (write_ops_never_raise (fun _ => .ok ()) "PIEC_ZADANA" "60").2.2.2.1 rfl⟩

/-! ## C6: sensor-absent sentinels -/

/-- The normalisation contract of one "sensor absent" snapshot field:
`none` for a missing, negative or non-numeric raw value, never a
negative number, and a raw `0` kept as a valid reading. -/
def sentinelOk (raw : Option JVal) (field : Option ℚ) : Prop :=
  (raw = none → field = none) ∧
  (∀ q : ℚ, raw = some (.num q) → q < 0 → field = none) ∧
  (raw = some .nonNum → field = none) ∧
  (∀ q : ℚ, field = some q → 0 ≤ q) ∧
  (raw = some (.num 0) → field = some 0)

theorem safePositive_sentinelOk (v : Option JVal) :
    sentinelOk v (safePositive v) := by
  refine ⟨?_, ?_, ?_, ?_, ?_⟩
  · rintro rfl; rfl
  · rintro q rfl hq
    simp [safePositive, safeFloat, hq]
  · rintro rfl; rfl
  · intro q hq
    rcases v with _ | v
    · simp [safePositive, safeFloat] at hq
    · rcases v with p | _
      · by_cases hp : p < 0
        · simp [safePositive, safeFloat, hp] at hq
        · simp [safePositive, safeFloat, hp] at hq
          exact hq ▸ le_of_not_lt hp
      · simp [safePositive, safeFloat] at hq
  · rintro rfl; rfl

/-- C6: in every snapshot the five "sensor absent" fields (`podcm`,
`podcmp`, `podczzas`, `podczdo`, `podgmin`) are `None` whenever the
raw key is missing, negative or non-numeric; they are never negative;
a raw `0` is kept as the valid reading `0`. -/
theorem snapshot_sentinel_fields (thermos : List (String × JVal))
    (config : List (List Char × List Char)) :
    sentinelOk (tget thermos "podcm") (mkLucjanData thermos config).hopper_cm ∧
    sentinelOk (tget thermos "podcmp")
      (mkLucjanData thermos config).hopper_percent_raw ∧
    sentinelOk (tget thermos "podczzas")
      (mkLucjanData thermos config).feeder_time_remaining_s ∧
    sentinelOk (tget thermos "podczdo")
      (mkLucjanData thermos config).feeder_time_total_s ∧
    sentinelOk (tget thermos "podgmin")
      (mkLucjanData thermos config).feeder_g_per_min :=
  ⟨safePositive_sentinelOk _, safePositive_sentinelOk _,
    safePositive_sentinelOk _, safePositive_sentinelOk _,
    safePositive_sentinelOk _⟩

/-- Witness for C6: with `podcm = -1` (negative sentinel),
`podcmp` non-numeric and `podczzas` missing, the derived fields are
`None`; a raw `podczdo = 0` stays `0`. -/
theorem snapshot_sentinel_fields_witness :
    tget [("podcm", .num (-1)), ("podcmp", JVal.nonNum), ("podczdo", .num 0)]
        "podcm" = some (.num (-1)) ∧
    (-1 : ℚ) < 0 ∧
    (mkLucjanData
        [("podcm", .num (-1)), ("podcmp", JVal.nonNum), ("podczdo", .num 0)]
        []).hopper_cm = none ∧
    (mkLucjanData
        [("podcm", .num (-1)), ("podcmp", JVal.nonNum), ("podczdo", .num 0)]
        []).hopper_percent_raw = none ∧
    (mkLucjanData
        [("podcm", .num (-1)), ("podcmp", JVal.nonNum), ("podczdo", .num 0)]
        []).feeder_time_remaining_s = none ∧
    (mkLucjanData
        [("podcm", .num (-1)), ("podcmp", JVal.nonNum), ("podczdo", .num 0)]
        []).feeder_time_total_s = some 0 := by
  refine ⟨by decide, by norm_num, ?_, ?_, ?_, ?_⟩
  · exact (snapshot_sentinel_fields
      [("podcm", .num (-1)), ("podcmp", JVal.nonNum), ("podczdo", .num 0)]
      []).1.2.1 (-1) (by decide) (by norm_num)
  · exact (snapshot_sentinel_fields
      [("podcm", .num (-1)), ("podcmp", JVal.nonNum), ("podczdo", .num 0)]
      []).2.1.2.2.1 (by decide)
  · exact (snapshot_sentinel_fields
      [("podcm", .num (-1)), ("podcmp", JVal.nonNum), ("podczdo", .num 0)]
      []).2.2.1.1 (by decide)
  · exact (snapshot_sentinel_fields
      [("podcm", .num (-1)), ("podcmp", JVal.nonNum), ("podczdo", .num 0)]
      []).2.2.2.1.2.2.2.2 (by decide)

/-! ## C7: hopper fill percentage -/

/-- C7: the hopper fill percentage prefers the direct percentage field
when present; otherwise, with remaining and total present and
total > 0, it is `remaining/total*100` rounded to one decimal; in
every remaining case it is `None`. -/
theorem hopper_level_percent_spec (d : LucjanData) :
    (∀ q, d.hopper_percent_raw = some q → d.hopper_level_percent = some q) ∧
    (d.hopper_percent_raw = none →
      ∀ r t, d.feeder_time_remaining_s = some r →
        d.feeder_time_total_s = some t → 0 < t →
        d.hopper_level_percent = some (pyRound (r / t * 100) 1)) ∧
    (d.hopper_percent_raw = none → d.feeder_time_remaining_s = none →
      d.hopper_level_percent = none) ∧
    (d.hopper_percent_raw = none → d.feeder_time_total_s = none →
      d.hopper_level_percent = none) ∧
    (∀ t, d.hopper_percent_raw = none → d.feeder_time_total_s = some t →
      ¬ 0 < t → d.hopper_level_percent = none) := by
  refine ⟨?_, ?_, ?_, ?_, ?_⟩
  · intro q hq; simp [LucjanData.hopper_level_percent, hq]
  · intro h0 r t hr ht hpos
    simp [LucjanData.hopper_level_percent, h0, hr, ht, hpos]
  · intro h0 hr
    simp [LucjanData.hopper_level_percent, h0, hr]
  · intro h0 ht
    rcases hr : d.feeder_time_remaining_s with _ | r <;>
      simp [LucjanData.hopper_level_percent, h0, hr, ht]
  · intro t h0 ht hneg
    rcases hr : d.feeder_time_remaining_s with _ | r <;>
      simp [LucjanData.hopper_level_percent, h0, hr, ht, hneg]

/-- Witness for C7: the spec's examples — `podcmp` absent,
`podczzas=600`, `podczdo=1200` gives `50`; `podczdo=0` gives `None`. -/
theorem hopper_level_percent_spec_witness :
    (mkLucjanData [("podczzas", .num 600), ("podczdo", .num 1200)]
        []).hopper_percent_raw = none ∧
    (mkLucjanData [("podczzas", .num 600), ("podczdo", .num 1200)]
        []).feeder_time_remaining_s = some 600 ∧
    (mkLucjanData [("podczzas", .num 600), ("podczdo", .num 1200)]
        []).feeder_time_total_s = some 1200 ∧
    (0 : ℚ) < 1200 ∧
    (mkLucjanData [("podczzas", .num 600), ("podczdo", .num 1200)]
        []).hopper_level_percent = some 50 ∧
    (mkLucjanData [("podczzas", .num 600), ("podczdo", .num 0)]
        []).hopper_level_percent = none := by
  refine ⟨by decide, by decide, by decide, by norm_num, ?_, ?_⟩
  · exact ((hopper_level_percent_spec
      (mkLucjanData [("podczzas", .num 600), ("podczdo", .num 1200)] [])).2.1
        (by decide) 600 1200 (by decide) (by decide) (by norm_num)).trans
      (by norm_num [pyRound, roundHalfEven])
  · exact (hopper_level_percent_spec
      (mkLucjanData [("podczzas", .num 600), ("podczdo", .num 0)] [])).2.2.2.2
        0 (by decide) (by decide) (by norm_num)

/-! ## C8: cumulative fuel consumption -/

/-- C8: the fuel consumption in kg is
`runtime_seconds/60 * grams_per_minute/1000` rounded to two decimals
when runtime and rate are present and the rate is positive, and `None`
in every other case. -/
theorem fuel_consumption_kg_spec (d : LucjanData) :
    (∀ s g, d.feeder_time_s = some s → d.feeder_g_per_min = some g → 0 < g →
      d.fuel_consumption_kg = some (pyRound (s / 60 * g / 1000) 2)) ∧
    (d.feeder_time_s = none → d.fuel_consumption_kg = none) ∧
    (d.feeder_g_per_min = none → d.fuel_consumption_kg = none) ∧
    (∀ g, d.feeder_g_per_min = some g → ¬ 0 < g →
      d.fuel_consumption_kg = none) := by
  refine ⟨?_, ?_, ?_, ?_⟩
  · intro s g hs hg hpos
    simp [LucjanData.fuel_consumption_kg, hs, hg, hpos]
  · intro hs
    rcases hg : d.feeder_g_per_min with _ | g <;>
      simp [LucjanData.fuel_consumption_kg, hs, hg]
  · intro hg
    rcases hs : d.feeder_time_s with _ | s <;>
      simp [LucjanData.fuel_consumption_kg, hs, hg]
  · intro g hg hneg
    rcases hs : d.feeder_time_s with _ | s <;>
      simp [LucjanData.fuel_consumption_kg, hs, hg, hneg]

/-- Witness for C8: the spec's examples — `podcz=120`, `podgmin=300`
gives `0.6` kg (`3/5`); `podgmin=0` gives `None`. -/
theorem fuel_consumption_kg_spec_witness :
    (mkLucjanData [("podcz", .num 120), ("podgmin", .num 300)]
        []).feeder_time_s = some 120 ∧
    (mkLucjanData [("podcz", .num 120), ("podgmin", .num 300)]
        []).feeder_g_per_min = some 300 ∧
    (0 : ℚ) < 300 ∧
    (mkLucjanData [("podcz", .num 120), ("podgmin", .num 300)]
        []).fuel_consumption_kg = some (3 / 5) ∧
    (mkLucjanData [("podcz", .num 120), ("podgmin", .num 0)]
        []).fuel_consumption_kg = none := by
  refine ⟨by decide, by decide, by norm_num, ?_, ?_⟩
  · exact ((fuel_consumption_kg_spec
      (mkLucjanData [("podcz", .num 120), ("podgmin", .num 300)] [])).1
        120 300 (by decide) (by decide) (by norm_num)).trans
      (by norm_num [pyRound, roundHalfEven])
  · exact (fuel_consumption_kg_spec
      (mkLucjanData [("podcz", .num 120), ("podgmin", .num 0)] [])).2.2.2
        0 (by decide) (by norm_num)

/-! ## Helper lemmas: `splitlines` and `joinNL` -/

theorem splitlinesAux_cr_cons (c2 : Char) (rest acc : List Char) (h : c2 ≠ '\n') :
    splitlinesAux ('\r' :: c2 :: rest) acc =
      acc.reverse :: splitlinesAux (c2 :: rest) [] := by
  simp [splitlinesAux, h]

theorem splitlinesAux_other (c : Char) (rest acc : List Char)
    (h1 : c ≠ '\n') (h2 : c ≠ '\r') :
    splitlinesAux (c :: rest) acc = splitlinesAux rest (c :: acc) := by
  simp [splitlinesAux, h1, h2]

theorem mem_splitlinesAux_noNL (s acc : List Char) :
    (∀ c ∈ acc, ¬(c = '\n' ∨ c = '\r')) →
    ∀ l ∈ splitlinesAux s acc, ∀ c ∈ l, ¬(c = '\n' ∨ c = '\r') := by
  induction s, acc using splitlinesAux.induct with
  | case1 acc h =>
    intro _ l hl
    simp [splitlinesAux, h] at hl
  | case2 acc h =>
    intro hacc l hl
    simp [splitlinesAux, h] at hl
    subst hl
    intro c hc
    exact hacc c (List.mem_reverse.mp hc)
  | case3 rest acc ih =>
    intro hacc l hl
    rw [splitlinesAux] at hl
    rcases List.mem_cons.mp hl with h | h
    · subst h; intro c hc; exact hacc c (List.mem_reverse.mp hc)
    · exact ih (by simp) l h
  | case4 rest acc ih =>
    intro hacc l hl
    rw [splitlinesAux] at hl
    rcases List.mem_cons.mp hl with h | h
    · subst h; intro c hc; exact hacc c (List.mem_reverse.mp hc)
    · exact ih (by simp) l h
  | case5 rest acc hne ih =>
    intro hacc l hl
    have hred : splitlinesAux ('\r' :: rest) acc =
        acc.reverse :: splitlinesAux rest [] := by
      rcases rest with _ | ⟨c2, rest2⟩
      · rfl
      · exact splitlinesAux_cr_cons c2 rest2 acc
          (fun hc2 => hne rest2 (by rw [hc2]))
    rw [hred] at hl
    rcases List.mem_cons.mp hl with h | h
    · subst h; intro c hc; exact hacc c (List.mem_reverse.mp hc)
    · exact ih (by simp) l h
  | case6 c rest acc hn hmid hr ih =>
    intro hacc l hl
    rw [splitlinesAux_other c rest acc (fun h => hn h) (fun h => hr h)] at hl
    refine ih ?_ l hl
    intro c2 hc2
    rcases List.mem_cons.mp hc2 with h | h
    · subst h
      rintro (h | h)
      · exact hn h
      · exact hr h
    · exact hacc c2 h

theorem noNL_of_mem_splitlines (s l : List Char) (hl : l ∈ splitlines s) :
    ∀ c ∈ l, ¬(c = '\n' ∨ c = '\r') :=
  mem_splitlinesAux_noNL s [] (by simp) l hl

theorem splitlinesAux_append_nl (l : List Char) :
    ∀ (rest acc : List Char), (∀ c ∈ l, ¬(c = '\n' ∨ c = '\r')) →
      splitlinesAux (l ++ '\n' :: rest) acc =
        (acc.reverse ++ l) :: splitlinesAux rest [] := by
  induction l with
  | nil =>
    intro rest acc _
    rw [List.nil_append, List.append_nil]
    rfl
  | cons c l ih =>
    intro rest acc h
    have hc := h c (by simp)
    have hc1 : c ≠ '\n' := fun hh => hc (Or.inl hh)
    have hc2 : c ≠ '\r' := fun hh => hc (Or.inr hh)
    rw [List.cons_append, splitlinesAux_other c _ acc hc1 hc2,
      ih rest (c :: acc) (fun c2 h2 => h c2 (List.mem_cons_of_mem c h2))]
    simp

theorem splitlines_joinNL (ls : List (List Char)) :
    ls ≠ [] → (∀ l ∈ ls, ∀ c ∈ l, ¬(c = '\n' ∨ c = '\r')) →
    splitlines (joinNL ls ++ ['\n']) = ls := by
  induction ls with
  | nil => intro hne _; exact absurd rfl hne
  | cons l ls ih =>
    intro _ h
    rcases ls with _ | ⟨l2, ls2⟩
    · show splitlinesAux (l ++ '\n' :: []) [] = [l]
      rw [splitlinesAux_append_nl l [] [] (h l (by simp))]
      rfl
    · have hj : joinNL (l :: l2 :: ls2) = l ++ '\n' :: joinNL (l2 :: ls2) := rfl
      rw [hj, List.append_assoc, List.cons_append]
      show splitlinesAux (l ++ '\n' :: (joinNL (l2 :: ls2) ++ ['\n'])) [] =
        l :: l2 :: ls2
      rw [splitlinesAux_append_nl l _ [] (h l (by simp))]
      rw [show splitlinesAux (joinNL (l2 :: ls2) ++ ['\n']) [] =
        splitlines (joinNL (l2 :: ls2) ++ ['\n']) from rfl]
      rw [ih (by simp) (fun l0 h0 => h l0 (List.mem_cons_of_mem l h0))]
      rfl

/-! ## Helper lemmas: `stripList` and `splitFirst` -/

theorem splitFirst_eq_some (c : Char) :
    ∀ (s a b : List Char), splitFirst c s = some (a, b) →
      s = a ++ c :: b ∧ c ∉ a := by
  intro s
  induction s with
  | nil => intro a b h; cases h
  | cons x xs ih =>
    intro a b h
    by_cases hx : x = c
    · rw [splitFirst, if_pos hx] at h
      obtain ⟨rfl, rfl⟩ : [] = a ∧ xs = b := by
        simpa [Prod.ext_iff] using h
      exact ⟨by simp [hx], by simp⟩
    · rw [splitFirst, if_neg hx] at h
      cases hsp : splitFirst c xs with
      | none => rw [hsp] at h; cases h
      | some p =>
        rw [hsp] at h
        obtain ⟨ha, hb⟩ : x :: p.1 = a ∧ p.2 = b := by
          simpa [Prod.ext_iff] using h
        obtain ⟨hxs, hnin⟩ := ih p.1 p.2 (by rw [hsp])
        subst ha; subst hb
        constructor
        · rw [hxs]; rfl
        · intro hmem
          rcases List.mem_cons.mp hmem with h1 | h1
          · exact hx h1.symm
          · exact hnin h1

theorem head?_dropWhile_nsat (p : Char → Bool) :
    ∀ (l : List Char) (a : Char), (l.dropWhile p).head? = some a →
      p a = false := by
  intro l
  induction l with
  | nil => intro a h; cases h
  | cons x xs ih =>
    intro a h
    by_cases hx : p x
    · rw [List.dropWhile_cons_of_pos hx] at h; exact ih a h
    · rw [List.dropWhile_cons_of_neg hx] at h
      have : x = a := by simpa using h
      subst this
      simpa using hx

theorem stripList_prefix_dropWhile (s : List Char) :
    stripList s <+: s.dropWhile isPySpace := by
  unfold stripList
  conv_rhs => rw [← List.reverse_reverse (s.dropWhile isPySpace)]
  exact List.reverse_prefix.mpr (List.dropWhile_suffix isPySpace)

theorem mem_stripList (s : List Char) : ∀ c ∈ stripList s, c ∈ s := by
  intro c hc
  have h1 := (stripList_prefix_dropWhile s).subset hc
  exact (List.dropWhile_sublist isPySpace).subset h1

theorem stripList_head_not_space (s : List Char) (a : Char) (t : List Char)
    (h : stripList s = a :: t) : isPySpace a = false := by
  obtain ⟨r, hr⟩ := stripList_prefix_dropWhile s
  rw [h] at hr
  exact head?_dropWhile_nsat isPySpace s a (by rw [← hr]; rfl)

theorem stripList_cons_head (a : Char) (k : List Char)
    (ha : isPySpace a = false) (b : Char) (t : List Char)
    (h : stripList (a :: k) = b :: t) : b = a := by
  have hd : (a :: k).dropWhile isPySpace = a :: k :=
    List.dropWhile_cons_of_neg (by simp [ha])
  obtain ⟨r, hr⟩ := stripList_prefix_dropWhile (a :: k)
  rw [h, hd] at hr
  exact (List.cons.injEq _ _ _ _ ▸ hr).1

/-! ## Helper lemmas: `parseLine` and `lineMatches` -/

theorem parseLine_eq (line : List Char) :
    parseLine line =
      (if (stripList line).isEmpty then none
       else if (stripList line).head? = some '#' then none
       else
         match splitFirst '=' (stripList line) with
         | none => none
         | some (k, v) =>
           if stripList k ≠ [] ∧ (stripList k).head? ≠ some '#' then
             some (stripList k,
               if '#' ∈ stripList v then
                 stripList ((stripList v).takeWhile (· ≠ '#'))
               else stripList v)
           else none) := rfl

theorem lineMatches_eq (param line : List Char) :
    lineMatches param line =
      (if (stripList line).head? = some '#' then false
       else
         match splitFirst '=' (stripList line) with
         | none => false
         | some (key, _) => decide (stripList key = param)) := rfl

theorem parseLine_key_ne_nil (line k v : List Char)
    (h : parseLine line = some (k, v)) : k ≠ [] := by
  rw [parseLine_eq] at h
  by_cases h1 : (stripList line).isEmpty
  · rw [if_pos h1] at h; cases h
  · rw [if_neg h1] at h
    by_cases h2 : (stripList line).head? = some '#'
    · rw [if_pos h2] at h; cases h
    · rw [if_neg h2] at h
      cases hsp : splitFirst '=' (stripList line) with
      | none => rw [hsp] at h; cases h
      | some kv =>
        obtain ⟨k0, v0⟩ := kv
        rw [hsp] at h
        dsimp only at h
        by_cases hc : stripList k0 ≠ [] ∧ (stripList k0).head? ≠ some '#'
        · rw [if_pos hc] at h
          have hk : stripList k0 = k := congrArg Prod.fst (Option.some.inj h)
          exact hk ▸ hc.1
        · rw [if_neg hc] at h; cases h

theorem parseLine_of_lineMatches (param line : List Char) (hp : param ≠ [])
    (h : lineMatches param line = true) :
    ∃ w, parseLine line = some (param, w) := by
  rw [lineMatches_eq] at h
  by_cases hcom : (stripList line).head? = some '#'
  · rw [if_pos hcom] at h; cases h
  · rw [if_neg hcom] at h
    cases hsp : splitFirst '=' (stripList line) with
    | none => rw [hsp] at h; cases h
    | some kv =>
      obtain ⟨k, v⟩ := kv
      rw [hsp] at h
      have hk : stripList k = param := by simpa using h
      have hlne : stripList line ≠ [] := by
        intro hnil; rw [hnil] at hsp; cases hsp
      obtain ⟨hdecomp, -⟩ := splitFirst_eq_some '=' (stripList line) k v hsp
      have hkne : k ≠ [] := by
        intro hknil
        apply hp
        rw [← hk, hknil]
        rfl
      obtain ⟨kc, k2, rfl⟩ := List.exists_cons_of_ne_nil hkne
      have hlhead : (stripList line).head? = some kc := by rw [hdecomp]; rfl
      have hkcsp : isPySpace kc = false := by
        rcases hstrip : stripList line with _ | ⟨a, t⟩
        · exact absurd hstrip hlne
        · have ha : a = kc := by rw [hstrip] at hlhead; simpa using hlhead
          subst ha
          exact stripList_head_not_space line a t hstrip
      have hkcnh : kc ≠ '#' := by
        intro hkc; rw [hkc] at hlhead; exact hcom hlhead
      obtain ⟨pa, pt, hpeq⟩ : ∃ a t, param = a :: t := by
        rcases hq : param with _ | ⟨a, t⟩
        · exact absurd hq hp
        · exact ⟨a, t, rfl⟩
      have hpa : pa = kc :=
        stripList_cons_head kc k2 hkcsp pa pt (by rw [hk, hpeq])
      have hcond : stripList (kc :: k2) ≠ [] ∧
          (stripList (kc :: k2)).head? ≠ some '#' := by
        constructor
        · rw [hk]; exact hp
        · rw [hk, hpeq]
          intro hcontra
          have hpc : pa = '#' := by simpa using hcontra
          exact hkcnh (by rw [← hpa, hpc])
      refine ⟨if '#' ∈ stripList v then
          stripList ((stripList v).takeWhile (· ≠ '#')) else stripList v, ?_⟩
      rw [parseLine_eq]
      rw [if_neg (by simpa [List.isEmpty_iff] using hlne)]
      rw [if_neg hcom, hsp]
      dsimp only
      rw [if_pos hcond, hk]

/-! ## Helper lemmas: the config dictionary -/

theorem find?_map_update_ne (d : List (List Char × List Char))
    (k v p : List Char) (hkp : k ≠ p) :
    (d.map (fun e => if e.1 = k then (k, v) else e)).find?
        (fun e => e.1 = p) =
      d.find? (fun e => e.1 = p) := by
  induction d with
  | nil => rfl
  | cons a d ih =>
    by_cases ha : a.1 = k
    · rw [List.map_cons, if_pos ha,
        List.find?_cons_of_neg _ (by simp [hkp]),
        List.find?_cons_of_neg _ (by simp [ha, hkp])]
      exact ih
    · rw [List.map_cons, if_neg ha]
      by_cases hp : a.1 = p
      · rw [List.find?_cons_of_pos _ (by simp [hp]),
          List.find?_cons_of_pos _ (by simp [hp])]
      · rw [List.find?_cons_of_neg _ (by simp [hp]),
          List.find?_cons_of_neg _ (by simp [hp])]
        exact ih

theorem find?_map_update_self (d : List (List Char × List Char))
    (k v : List Char) (hany : d.any (fun e => e.1 = k) = true) :
    (d.map (fun e => if e.1 = k then (k, v) else e)).find?
        (fun e => e.1 = k) = some (k, v) := by
  induction d with
  | nil => cases hany
  | cons a d ih =>
    by_cases ha : a.1 = k
    · rw [List.map_cons, if_pos ha, List.find?_cons_of_pos _ (by simp)]
    · rw [List.map_cons, if_neg ha, List.find?_cons_of_neg _ (by simp [ha])]
      exact ih (by simpa [List.any_cons, ha] using hany)

theorem dictGet_dictSet_self (d : List (List Char × List Char))
    (k v : List Char) : dictGet (dictSet d k v) k = some v := by
  unfold dictGet dictSet
  by_cases hany : d.any (fun e => e.1 = k)
  · rw [if_pos hany, find?_map_update_self d k v hany]
    rfl
  · rw [if_neg hany, List.find?_append]
    have hnone : d.find? (fun e => e.1 = k) = none := by
      rw [List.find?_eq_none]
      intro e he hpred
      exact hany (List.any_eq_true.mpr ⟨e, he, hpred⟩)
    rw [hnone]
    simp

theorem dictGet_dictSet_ne (d : List (List Char × List Char))
    (k v p : List Char) (hkp : k ≠ p) :
    dictGet (dictSet d k v) p = dictGet d p := by
  unfold dictGet dictSet
  by_cases hany : d.any (fun e => e.1 = k)
  · rw [if_pos hany, find?_map_update_ne d k v p hkp]
  · rw [if_neg hany, List.find?_append]
    have h2 : List.find? (fun e => e.1 = p) [(k, v)] = none := by
      simp [hkp]
    rw [h2]
    simp

theorem foldl_parse_eq_entries (ls : List (List Char)) :
    ∀ d, ls.foldl
        (fun d line =>
          match parseLine line with
          | none => d
          | some e => dictSet d e.1 e.2) d =
      (ls.filterMap parseLine).foldl (fun d e => dictSet d e.1 e.2) d := by
  induction ls with
  | nil => intro d; rfl
  | cons a ls ih =>
    intro d
    cases h : parseLine a <;>
      simp [List.filterMap_cons, h, ih]

theorem dictGet_foldl_dictSet (es : List (List Char × List Char)) :
    ∀ (d : List (List Char × List Char)) (p : List Char),
      dictGet (es.foldl (fun d e => dictSet d e.1 e.2) d) p =
        match (es.filter (fun e => e.1 = p)).getLast? with
        | some e => some e.2
        | none => dictGet d p := by
  induction es with
  | nil => intro d p; rfl
  | cons a es ih =>
    intro d p
    rw [List.foldl_cons, ih]
    by_cases ha : a.1 = p
    · subst ha
      rw [List.filter_cons_of_pos (by simp)]
      cases hflt : es.filter (fun e => e.1 = a.1) with
      | nil =>
        dsimp
        exact dictGet_dictSet_self d a.1 a.2
      | cons b bs =>
        rw [List.getLast?_cons_cons]
        cases hbl : (b :: bs).getLast? with
        | none => simp at hbl
        | some x => rfl
    · rw [List.filter_cons_of_neg (by simp [ha])]
      cases hflt : (es.filter (fun e => e.1 = p)).getLast? with
      | some x => rfl
      | none =>
        dsimp
        exact dictGet_dictSet_ne d a.1 a.2 p ha

theorem dictGet_parseConfigLines (ls : List (List Char)) (p : List Char) :
    dictGet (parseConfigLines ls) p =
      ((ls.filterMap parseLine).filter (fun e => e.1 = p)).getLast?.map (·.2) := by
  rw [parseConfigLines, foldl_parse_eq_entries, dictGet_foldl_dictSet]
  cases h : ((ls.filterMap parseLine).filter (fun e => e.1 = p)).getLast? <;>
    simp [h, dictGet]

/-! ## C4: `_parse_config` -/

/-- C4: `_parse_config` ignores comment lines (stripped line starting
with `#`), lines without `=` and lines whose trimmed key is empty;
every kept line is split at its first `=`, key and value are trimmed
and the value is truncated at an inline `#`; the resulting mapping
resolves duplicate keys last-occurrence-wins with no error (the lookup
equals the last parsed entry for the key); and the spec's example
parses to `{PIEC_ZADANA: 55, CO_TRYB: ZIMA}`. -/
theorem parse_config_spec :
    (∀ text p, dictGet (parseConfig text) p =
      (((splitlines text).filterMap parseLine).filter
        (fun e => e.1 = p)).getLast?.map (·.2)) ∧
    parseConfig "# comment\nPIEC_ZADANA = 55\nCO_TRYB=ZIMA # note\n".toList =
      [("PIEC_ZADANA".toList, "55".toList), ("CO_TRYB".toList, "ZIMA".toList)] ∧
    (∀ line, (stripList line).head? = some '#' → parseLine line = none) ∧
    (∀ line, splitFirst '=' (stripList line) = none → parseLine line = none) ∧
    (∀ line k v, splitFirst '=' (stripList line) = some (k, v) →
      stripList k = [] → parseLine line = none) ∧
    (∀ line k v, splitFirst '=' (stripList line) = some (k, v) →
      stripList k ≠ [] → (stripList k).head? ≠ some '#' →
      (stripList line).head? ≠ some '#' →
      parseLine line = some (stripList k,
        if '#' ∈ stripList v then
          stripList ((stripList v).takeWhile (· ≠ '#'))
        else stripList v)) := by
  refine ⟨?_, by decide, ?_, ?_, ?_, ?_⟩
  · intro text p
    rw [parseConfig]
    exact dictGet_parseConfigLines (splitlines text) p
  · intro line h
    rw [parseLine_eq]
    by_cases he : (stripList line).isEmpty
    · rw [if_pos he]
    · rw [if_neg he, if_pos h]
  · intro line h
    rw [parseLine_eq]
    by_cases he : (stripList line).isEmpty
    · rw [if_pos he]
    · rw [if_neg he]
      by_cases hc : (stripList line).head? = some '#'
      · rw [if_pos hc]
      · rw [if_neg hc, h]
  · intro line k v hsp hk
    rw [parseLine_eq]
    by_cases he : (stripList line).isEmpty
    · rw [if_pos he]
    · rw [if_neg he]
      by_cases hc : (stripList line).head? = some '#'
      · rw [if_pos hc]
      · rw [if_neg hc, hsp]
        dsimp
        rw [if_neg (by simp [hk])]
  · intro line k v hsp hne hnh hcom
    rw [parseLine_eq]
    by_cases he : (stripList line).isEmpty
    · exfalso
      have hnil : stripList line = [] := by
        simpa [List.isEmpty_iff] using he
      rw [hnil] at hsp
      cases hsp
    · rw [if_neg he, if_neg hcom, hsp]
      dsimp
      rw [if_pos ⟨hne, hnh⟩]

/-- Witness for C4: last-occurrence-wins on a duplicated key, a
comment line, a line without `=`, an empty-key line, and the spec's
inline-comment line. -/
theorem parse_config_spec_witness :
    dictGet (parseConfig "CO_TRYB=A\nCO_TRYB=B\n".toList) "CO_TRYB".toList =
      some "B".toList ∧
    parseLine "# comment".toList = none ∧
    parseLine "JUSTTEXT".toList = none ∧
    parseLine " = 5".toList = none ∧
    parseLine " CO_TRYB = ZIMA # note ".toList =
      some ("CO_TRYB".toList, "ZIMA".toList) := by
  refine ⟨?_, ?_, ?_, ?_, ?_⟩
  · exact (parse_config_spec.1 "CO_TRYB=A\nCO_TRYB=B\n".toList
      "CO_TRYB".toList).trans (by decide)
  · exact parse_config_spec.2.2.1 "# comment".toList (by decide)
  · exact parse_config_spec.2.2.2.1 "JUSTTEXT".toList (by decide)
  · exact parse_config_spec.2.2.2.2.1 " = 5".toList [] " 5".toList
      (by decide) (by decide)
  · exact (parse_config_spec.2.2.2.2.2 " CO_TRYB = ZIMA # note ".toList
      "CO_TRYB ".toList " ZIMA # note".toList
      (by decide) (by decide) (by decide) (by decide)).trans (by decide)

/-! ## C10: duplicate keys — replace touches the first, parse reads the last -/

theorem lineMatches_param_mem (param l : List Char)
    (h : lineMatches param l = true) : ∀ c ∈ param, c ∈ l := by
  rw [lineMatches_eq] at h
  by_cases hcom : (stripList l).head? = some '#'
  · rw [if_pos hcom] at h; cases h
  · rw [if_neg hcom] at h
    cases hsp : splitFirst '=' (stripList l) with
    | none => rw [hsp] at h; cases h
    | some kv =>
      obtain ⟨k, v⟩ := kv
      rw [hsp] at h
      have hk : stripList k = param := by simpa using h
      obtain ⟨hdecomp, -⟩ := splitFirst_eq_some '=' (stripList l) k v hsp
      intro c hc
      rw [← hk] at hc
      have h1 : c ∈ k := mem_stripList k c hc
      have h2 : c ∈ stripList l := by
        rw [hdecomp]
        exact List.mem_append.mpr (Or.inl h1)
      exact mem_stripList l c h2

theorem getLast?_append_right {α : Type} (X C : List α) (hC : C ≠ []) :
    (X ++ C).getLast? = C.getLast? := by
  rw [List.getLast?_append]
  cases hc : C.getLast? with
  | none => exact absurd (List.getLast?_eq_none_iff.mp hc) hC
  | some c => rfl

theorem filter_entries_nil_key (zs : List (List Char)) :
    ((zs.filterMap parseLine).filter
      (fun e => e.1 = ([] : List Char))) = [] := by
  rw [List.filter_eq_nil_iff]
  intro e he
  obtain ⟨line, -, hpl⟩ := List.mem_filterMap.mp he
  have := parseLine_key_ne_nil line e.1 e.2 hpl
  simp [this]

/-- C10: when the parameter occurs as a non-comment `key=value` line
on more than one line, `_replace_config_param` rewrites only the first
occurrence — the prefix contains no match and the whole suffix,
including a later matching line, is untouched — and because
`_parse_config` resolves duplicates last-occurrence-wins, parsing the
uploaded text still yields the old value of the parameter: the lookup
is unchanged, so the newly written value is not the parsed one. -/
theorem replaceConfigParam_duplicate_parse_unchanged
    (text param value : List Char)
    (hv : ∀ c ∈ value, ¬(c = '\n' ∨ c = '\r'))
    (hdup : 2 ≤
      ((splitlines text).filter (fun l => lineMatches param l)).length) :
    ∃ pre l suf,
      splitlines text = pre ++ l :: suf ∧
      (∀ l2 ∈ pre, lineMatches param l2 = false) ∧
      lineMatches param l = true ∧
      (∃ l2 ∈ suf, lineMatches param l2 = true) ∧
      replaceConfigParam text param value =
        some (joinNL (pre ++ newParamLine param value l :: suf) ++ ['\n']) ∧
      dictGet (parseConfig
          (joinNL (pre ++ newParamLine param value l :: suf) ++ ['\n'])) param =
        dictGet (parseConfig text) param := by
  have hflt_ne :
      (splitlines text).filter (fun l => lineMatches param l) ≠ [] := by
    intro h; rw [h] at hdup; simp at hdup
  obtain ⟨x, hx⟩ := List.exists_mem_of_ne_nil _ hflt_ne
  have hx2 := List.mem_filter.mp hx
  obtain ⟨pre, l, suf, hdecomp, hpre, hl, hrepl⟩ :=
    replaceInLines_eq_some param value (splitlines text) ⟨x, hx2.1, hx2.2⟩
  have hpre_flt : pre.filter (fun l => lineMatches param l) = [] :=
    List.filter_eq_nil_iff.mpr (fun a ha => by simp [hpre a ha])
  have hsuf_ne : suf.filter (fun l => lineMatches param l) ≠ [] := by
    rw [hdecomp, List.filter_append, hpre_flt, List.nil_append,
      List.filter_cons_of_pos hl] at hdup
    intro h
    rw [h] at hdup
    simp at hdup
  obtain ⟨l2, hl2⟩ := List.exists_mem_of_ne_nil _ hsuf_ne
  have hl2' := List.mem_filter.mp hl2
  refine ⟨pre, l, suf, hdecomp, hpre, hl, ⟨l2, hl2'.1, hl2'.2⟩,
    by simp [replaceConfigParam, hrepl], ?_⟩
  -- the parsed value of `param` is unchanged
  have hlines_noNL : ∀ l0 ∈ splitlines text, ∀ c ∈ l0,
      ¬(c = '\n' ∨ c = '\r') := fun l0 h0 => noNL_of_mem_splitlines text l0 h0
  have hl_mem : l ∈ splitlines text := by rw [hdecomp]; simp
  have hnl_noNL : ∀ c ∈ newParamLine param value l, ¬(c = '\n' ∨ c = '\r') := by
    intro c hc
    have hparam : c ∈ param → ¬(c = '\n' ∨ c = '\r') := fun hcp =>
      hlines_noNL l hl_mem c (lineMatches_param_mem param l hl c hcp)
    rw [newParamLine] at hc
    by_cases hsep : containsSubstr (' ' :: '=' :: [' ']) l
    · rw [if_pos hsep] at hc
      rcases List.mem_append.mp hc with h1 | h1
      · exact hparam h1
      · simp only [List.mem_cons] at h1
        rcases h1 with rfl | rfl | rfl | h1
        · simp
        · simp
        · simp
        · exact hv c h1
    · rw [if_neg hsep] at hc
      rcases List.mem_append.mp hc with h1 | h1
      · exact hparam h1
      · simp only [List.mem_cons] at h1
        rcases h1 with rfl | h1
        · simp
        · exact hv c h1
  have hnew_noNL : ∀ l0 ∈ pre ++ newParamLine param value l :: suf,
      ∀ c ∈ l0, ¬(c = '\n' ∨ c = '\r') := by
    intro l0 h0
    rcases List.mem_append.mp h0 with h1 | h1
    · exact hlines_noNL l0 (by rw [hdecomp]; exact List.mem_append.mpr (Or.inl h1))
    · rcases List.mem_cons.mp h1 with h2 | h2
      · exact h2 ▸ hnl_noNL
      · exact hlines_noNL l0 (by rw [hdecomp]; simp [h2])
  have hsplit : splitlines
      (joinNL (pre ++ newParamLine param value l :: suf) ++ ['\n']) =
      pre ++ newParamLine param value l :: suf :=
    splitlines_joinNL _ (by simp) hnew_noNL
  rw [parseConfig, hsplit, dictGet_parseConfigLines]
  rw [show parseConfig text = parseConfigLines (splitlines text) from rfl,
    dictGet_parseConfigLines, hdecomp]
  rw [show pre ++ newParamLine param value l :: suf =
    (pre ++ [newParamLine param value l]) ++ suf by simp]
  rw [show pre ++ l :: suf = (pre ++ [l]) ++ suf by simp]
  by_cases hp : param = []
  · subst hp
    rw [filter_entries_nil_key ((pre ++ [newParamLine [] value l]) ++ suf),
      filter_entries_nil_key ((pre ++ [l]) ++ suf)]
  · -- the last matching entry lives in `suf`, untouched on both sides
    obtain ⟨w, hw⟩ := parseLine_of_lineMatches param l2 hp hl2'.2
    have hC_ne : ((suf.filterMap parseLine).filter
        (fun e => e.1 = param)) ≠ [] :=
      List.ne_nil_of_mem (List.mem_filter.mpr
        ⟨List.mem_filterMap.mpr ⟨l2, hl2'.1, hw⟩, by simp⟩)
    have hrw : ∀ mid : List Char,
        (((pre ++ [mid]) ++ suf).filterMap parseLine).filter
            (fun e => e.1 = param) =
          (((pre ++ [mid]).filterMap parseLine).filter
            (fun e => e.1 = param)) ++
          ((suf.filterMap parseLine).filter (fun e => e.1 = param)) := by
      intro mid
      rw [List.filterMap_append, List.filter_append]
    rw [hrw, hrw, getLast?_append_right _ _ hC_ne,
      getLast?_append_right _ _ hC_ne]

/-- Witness for C10: `CO_TRYB` occurs twice; replacing it with `X`
rewrites only the first line and the parsed value stays the one from
the last line. -/
theorem replaceConfigParam_duplicate_parse_unchanged_witness :
    (∀ c ∈ "X".toList, ¬(c = '\n' ∨ c = '\r')) ∧
    2 ≤ ((splitlines "CO_TRYB=A\nCO_TRYB=B\n".toList).filter
      (fun l => lineMatches "CO_TRYB".toList l)).length ∧
    (∃ pre l suf,
      splitlines "CO_TRYB=A\nCO_TRYB=B\n".toList = pre ++ l :: suf ∧
      (∀ l2 ∈ pre, lineMatches "CO_TRYB".toList l2 = false) ∧
      lineMatches "CO_TRYB".toList l = true ∧
      (∃ l2 ∈ suf, lineMatches "CO_TRYB".toList l2 = true) ∧
      replaceConfigParam "CO_TRYB=A\nCO_TRYB=B\n".toList
          "CO_TRYB".toList "X".toList =
        some (joinNL (pre ++
          newParamLine "CO_TRYB".toList "X".toList l :: suf) ++ ['\n']) ∧
      dictGet (parseConfig (joinNL (pre ++
          newParamLine "CO_TRYB".toList "X".toList l :: suf) ++ ['\n']))
          "CO_TRYB".toList =
        dictGet (parseConfig "CO_TRYB=A\nCO_TRYB=B\n".toList)
          "CO_TRYB".toList) :=
  ⟨by decide, by decide,
    replaceConfigParam_duplicate_parse_unchanged _ _ _ (by decide) (by decide)⟩

/-- Sanity check accompanying C10, fully computed: the first duplicate
line is rewritten, and the parse still reads `B` from the last line. -/
theorem replace_duplicate_concrete :
    replaceConfigParam "CO_TRYB=A\nCO_TRYB=B\n".toList
        "CO_TRYB".toList "X".toList =
      some "CO_TRYB=X\nCO_TRYB=B\n".toList ∧
    dictGet (parseConfig "CO_TRYB=X\nCO_TRYB=B\n".toList) "CO_TRYB".toList =
      some "B".toList := by
  exact ⟨by decide, by decide⟩

end Lucjan
